import Mathlib

/-!
Shallow embedding of the mexc-copytrader trade-replication engine.

Numbers are modelled as rationals (the JavaScript source only uses
+, -, *, /, floor, min, max and comparisons on its numeric values; the
float-formatting rounding of `roundToStep`/`toFixed` is abstracted, as it is
applied uniformly after parameter derivation).  Randomness is modelled by
passing each `Math.random()` draw (a rational in `[0, 1)`) explicitly as an
argument.  Fallible calls to the exchange client are modelled with
`Except`/`Option`, and each batch step takes the behaviour of the account's
client call as an explicit argument.
-/

namespace MexcCopytrader

/-- Position / order direction (`'long' | 'short'` in the source). -/
inductive Side
  | long
  | short
deriving DecidableEq, Repr

/-- `utils/helpers.ts` `applyPriceDeviation`: `deviation = Math.random() * maxDeviationPercent`;
long direction multiplies by `1 + deviation/100`, short by `1 - deviation/100`.
`r` is the `Math.random()` draw. -/
def applyPriceDeviation (basePrice maxDeviationPercent : ℚ) (direction : Side) (r : ℚ) : ℚ :=
  let deviation := r * maxDeviationPercent
  match direction with
  | .long => basePrice * (1 + deviation / 100)
  | .short => basePrice * (1 - deviation / 100)

/-- `utils/helpers.ts` `randomLeverage`: `Math.floor(Math.random() * (max - min + 1)) + min`. -/
def randomLeverage (min max : ℤ) (r : ℚ) : ℤ :=
  ⌊r * ((max : ℚ) - (min : ℚ) + 1)⌋ + min

/-- `utils/helpers.ts` `randomDelay`: `Math.floor(Math.random() * (maxMs - minMs + 1)) + minMs`. -/
def randomDelay (minMs maxMs : ℤ) (r : ℚ) : ℤ :=
  ⌊r * ((maxMs : ℚ) - (minMs : ℚ) + 1)⌋ + minMs

/-- `config/types.ts` `Position` (the fields used by the engine). -/
structure Position where
  symbol : String
  side : Side
  volume : ℚ
  entryPrice : ℚ
  leverage : ℤ
  margin : ℚ
  unrealizedPnl : ℚ
deriving DecidableEq, Repr

/-- A raw position record as returned by the underlying MEXC SDK call
(`mexc/client.ts` `getOpenPositions` reads these fields). -/
structure RawPosition where
  symbol : String
  positionType : ℤ
  holdVol : ℚ
  openAvgPrice : ℚ
  leverage : ℤ
  im : ℚ
  unrealisedPnl : ℚ
deriving DecidableEq, Repr

/-- The field mapping inside `mexc/client.ts` `getOpenPositions`:
`positionType === 1` is long, everything else short. -/
def rawToPosition (p : RawPosition) : Position :=
  { symbol := p.symbol
    side := if p.positionType = 1 then .long else .short
    volume := p.holdVol
    entryPrice := p.openAvgPrice
    leverage := p.leverage
    margin := p.im
    unrealizedPnl := p.unrealisedPnl }

/-- `mexc/client.ts` `MexcClientWrapper.getOpenPositions`: the underlying SDK query
either throws (modelled `.error`) or resolves with a list; on a throw the catch
block logs and returns `[]`, otherwise entries with `holdVol > 0` are mapped. -/
def getOpenPositions (query : Except String (List RawPosition)) : List Position :=
  match query with
  | .error _ => []
  | .ok list => (list.filter (fun p => 0 < p.holdVol)).map rawToPosition

/-- `mexc/client.ts` `MexcClientWrapper.hasOpenPosition`:
`(await this.getOpenPositions(symbol)).length > 0`. -/
def hasOpenPosition (query : Except String (List RawPosition)) : Bool :=
  (getOpenPositions query).length > 0

/-! ## PositionWatcher: `CopyTradingEngine.checkMasterChanges` -/

/-- A replication event raised by the watcher: `copyOpenPosition` for a newly seen
(symbol, side) pair, `copyClosePosition` for a vanished one. -/
inductive WatcherEvent
  | opened (pos : Position)
  | closed (pos : Position)
deriving DecidableEq, Repr

/-- The (symbol, side) identity used by the diff in `checkMasterChanges`
(`p.symbol === pos.symbol && p.side === pos.side`). -/
def sameKey (p q : Position) : Bool :=
  p.symbol == q.symbol && (p.side == q.side)

/-- `mexc/copyTrader.ts` `CopyTradingEngine.checkMasterChanges`, given the stored
snapshot and the outcome of the (awaited) fetch. On an exception the catch block
only logs: no events, snapshot unchanged. Otherwise: first loop emits an open
replication for each current position with no (symbol, side) match in the previous
snapshot, second loop emits a close replication for each previous position with no
match in the current list, then the stored snapshot is replaced by the fetched
list. -/
def checkMasterChanges (previous : List Position)
    (fetch : Except String (List Position)) : List WatcherEvent × List Position :=
  match fetch with
  | .error _ => ([], previous)
  | .ok currentPositions =>
      let opens := (currentPositions.filter
        (fun pos => (previous.find? (fun p => sameKey p pos)).isNone)).map .opened
      let closes := (previous.filter
        (fun prev => (currentPositions.find? (fun p => sameKey p prev)).isNone)).map .closed
      (opens ++ closes, currentPositions)

/-- One watcher tick as actually wired: the fetch goes through
`MexcClientWrapper.getOpenPositions`, which never throws (it returns `[]` on an
underlying failure), so `checkMasterChanges` always receives `.ok`. -/
def checkMasterChangesTick (previous : List Position)
    (query : Except String (List RawPosition)) : List WatcherEvent × List Position :=
  checkMasterChanges previous (.ok (getOpenPositions query))

/-- Snapshot lists coming from the exchange have pairwise distinct
(symbol, side) identities. -/
def keysNodup (l : List Position) : Prop :=
  (l.map (fun p => (p.symbol, p.side))).Nodup

/-! ## OrderTimer: the signal-driven cancellation timer
(`telegram/handlers/signals.ts`, `handleTradeSignal`, the `setTimeout` callback) -/

/-- An action the deferred timer callback may take against the exchange. -/
inductive TimerAction
  | cancelAllOrders (symbol : String)
  | closeOrder (symbol : String)
deriving DecidableEq, Repr

/-- The armed cancellation timer's callback in `handleTradeSignal`: it re-queries
`hasOpenPosition(signal.fullSymbol)` and, **when no position is held**, cancels all
orders for the symbol; when a position is held it does nothing. `hasPos` is the
re-queried live answer. -/
def signalCancelTimerActions (fullSymbol : String) (hasPos : Bool) : List TimerAction :=
  if !hasPos then [.cancelAllOrders fullSymbol] else []

/-! ## Configuration data (`config/types.ts`) -/

/-- `config/types.ts` `AccountConfig` (the fields the engine reads). -/
structure AccountConfig where
  id : String
  name : String
  enabled : Bool
  isMaster : Bool
  maxPositionUsd : ℚ
  leverageMin : ℤ
  leverageMax : ℤ
deriving DecidableEq, Repr, Inhabited

/-- `config/types.ts` `CopyTradingSettings`. -/
structure CopyTradingSettings where
  delayMinMs : ℤ
  delayMaxMs : ℤ
  priceDeviationPercent : ℚ
  leverageSpread : ℤ
  copyOpenPositions : Bool
  copyClosePositions : Bool
  copyTpSl : Bool
  signalsEnabled : Bool
  signalEntryOffset : ℚ
  signalTpOffset : ℚ
  signalCancelTimeMin : ℤ
  signalCancelTimeMax : ℤ
deriving DecidableEq, Repr

/-- `config/types.ts` `TradeResult` (fields used by the batch entry points). -/
structure TradeResult where
  accountId : String
  accountName : String
  success : Bool
  message : String
  executedPrice : Option ℚ := none
  executedVolume : Option ℚ := none
  leverage : Option ℤ := none
deriving DecidableEq, Repr

/-- An order request handed to `client.openPosition` (price is the derived entry
price before the uniform `roundToStep` formatting; `takeProfit` only set in the
signal path). -/
structure OpenOrderRequest where
  symbol : String
  side : Side
  price : ℚ
  volume : ℤ
  leverage : ℤ
  takeProfit : Option ℚ := none
deriving DecidableEq, Repr

/-- Behaviour of one account's exchange-client interaction inside a batch step:
the `clientManager` may have no client for the account, the awaited call may
throw, or it may resolve with `{success, message}` (`message` optional, as in
`result.message || 'OK'`). -/
inductive ClientCall
  | noClient
  | throws (msg : String)
  | responds (success : Bool) (msg : Option String)
deriving DecidableEq, Repr

/-- The inline ternary `side === 'long' ? 'short' : 'long'` used for exit/TP
deviation directions. -/
def oppositeSide : Side → Side
  | .long => .short
  | .short => .long

/-! ## Automatic replication: `CopyTradingEngine.copyOpenPosition`, per account -/

/-- Outcome of the parameter derivation for one slave account in
`copyOpenPosition`: either the volume-too-small skip (`if (volume < 1) continue`,
logged as "Объём слишком мал для открытия") or an order request. -/
inductive CopyOpenOutcome
  | skippedVolumeTooSmall
  | order (req : OpenOrderRequest)
deriving DecidableEq, Repr

/-- `mexc/copyTrader.ts` `copyOpenPosition`, body of the per-account loop
(price deviation, leverage draw, notional cap, volume floor, skip-if-below-1).
`rPrice`/`rLev` are the `Math.random()` draws for this account. -/
def copyOpenAccountStep (settings : CopyTradingSettings) (account : AccountConfig)
    (masterPosition : Position) (contractSize : ℚ) (rPrice rLev : ℚ) : CopyOpenOutcome :=
  let price := applyPriceDeviation masterPosition.entryPrice
    settings.priceDeviationPercent masterPosition.side rPrice
  let leverage := randomLeverage (max 1 account.leverageMin)
    (min account.leverageMax masterPosition.leverage) rLev
  let positionUsd := min account.maxPositionUsd
    (masterPosition.margin * (masterPosition.leverage : ℚ))
  let volume := ⌊positionUsd / (price * contractSize)⌋
  if volume < 1 then .skippedVolumeTooSmall
  else .order
    { symbol := masterPosition.symbol
      side := masterPosition.side
      price := price
      volume := volume
      leverage := leverage }

/-! ## Manual batch open: `CopyTradingEngine.manualOpenPosition` -/

/-- The `params` argument of `manualOpenPosition`. -/
structure ManualOpenParams where
  symbol : String
  side : Side
  price : ℚ
  positionSizeUsd : ℚ
  leverage : ℤ
deriving DecidableEq, Repr

/-- Parameter derivation in `manualOpenPosition`: the master account passes the
reference price and leverage through unchanged; every other account gets a random
price deviation and a leverage drawn from
`[max(1, leverage - leverageSpread), min(leverage, account.leverageMax)]`. -/
def manualOpenDerivedParams (settings : CopyTradingSettings) (params : ManualOpenParams)
    (account : AccountConfig) (rPrice rLev : ℚ) : ℚ × ℤ :=
  if account.isMaster then (params.price, params.leverage)
  else
    let entryPrice := applyPriceDeviation params.price
      settings.priceDeviationPercent params.side rPrice
    let minLev := max 1 (params.leverage - settings.leverageSpread)
    let maxLev := min params.leverage account.leverageMax
    (entryPrice, randomLeverage minLev maxLev rLev)

/-- Volume in `manualOpenPosition`:
`Math.max(1, Math.floor(min(positionSizeUsd, account.maxPositionUsd) / (entryPrice * contractSize)))`. -/
def manualOpenVolume (params : ManualOpenParams) (account : AccountConfig)
    (entryPrice contractSize : ℚ) : ℤ :=
  let maxPosUsd := min params.positionSizeUsd account.maxPositionUsd
  max 1 ⌊maxPosUsd / (entryPrice * contractSize)⌋

/-- The order request `manualOpenPosition` hands to `client.openPosition`. -/
def manualOpenRequest (settings : CopyTradingSettings) (params : ManualOpenParams)
    (contractSize : ℚ) (account : AccountConfig) (rPrice rLev : ℚ) : OpenOrderRequest :=
  let derived := manualOpenDerivedParams settings params account rPrice rLev
  { symbol := params.symbol
    side := params.side
    price := derived.1
    volume := manualOpenVolume params account derived.1 contractSize
    leverage := derived.2 }

/-- One iteration of the account loop in `manualOpenPosition`: a missing client
pushes a failed result without an order; a throwing `openPosition` pushes a failed
result carrying the error message; a resolved call pushes a result with the
client's success flag, `result.message || 'OK'` and the executed parameters. -/
def manualOpenAccountStep (settings : CopyTradingSettings) (params : ManualOpenParams)
    (contractSize : ℚ) (account : AccountConfig) (call : ClientCall)
    (rPrice rLev : ℚ) : Option OpenOrderRequest × TradeResult :=
  match call with
  | .noClient =>
      (none, { accountId := account.id
               accountName := account.name
               success := false
               message := "Клиент не инициализирован" })
  | .throws msg =>
      (some (manualOpenRequest settings params contractSize account rPrice rLev),
        { accountId := account.id
          accountName := account.name
          success := false
          message := msg })
  | .responds success msg =>
      let req := manualOpenRequest settings params contractSize account rPrice rLev
      (some req, { accountId := account.id
                   accountName := account.name
                   success := success
                   message := msg.getD "OK"
                   executedPrice := some req.price
                   executedVolume := some (req.volume : ℚ)
                   leverage := some req.leverage })

/-- `manualOpenPosition` over the enabled-account list: one loop iteration per
account, each pushing exactly one result. `env` gives each account's client
behaviour, `draws` its two fresh random draws. -/
def manualOpenPosition (settings : CopyTradingSettings) (params : ManualOpenParams)
    (contractSize : ℚ) (env : String → ClientCall) (draws : String → ℚ × ℚ)
    (accounts : List AccountConfig) : List (Option OpenOrderRequest × TradeResult) :=
  accounts.map (fun account =>
    manualOpenAccountStep settings params contractSize account (env account.id)
      (draws account.id).1 (draws account.id).2)

/-! ## Signal-driven open: `telegram/handlers/signals.ts` `handleTradeSignal` -/

/-- `signals.ts` `ParsedSignal`. -/
structure ParsedSignal where
  symbol : String
  fullSymbol : String
  entryPrice : ℚ
  takeProfit : ℚ
  side : Side
deriving DecidableEq, Repr

/-- Entry price in the signal path: the global offset
`signal.entryPrice * (1 + signalEntryOffset/100)` is applied to every account;
non-master accounts additionally get the random deviation in the signal's
direction. -/
def signalEntryPrice (settings : CopyTradingSettings) (signal : ParsedSignal)
    (account : AccountConfig) (rPrice : ℚ) : ℚ :=
  let entryPrice := signal.entryPrice * (1 + settings.signalEntryOffset / 100)
  if account.isMaster then entryPrice
  else applyPriceDeviation entryPrice settings.priceDeviationPercent signal.side rPrice

/-- Take-profit price in the signal path (offset for everyone, opposite-direction
random deviation for non-master accounts). -/
def signalTakeProfit (settings : CopyTradingSettings) (signal : ParsedSignal)
    (account : AccountConfig) (rTp : ℚ) : ℚ :=
  let takeProfit := signal.takeProfit * (1 + settings.signalTpOffset / 100)
  if account.isMaster then takeProfit
  else applyPriceDeviation takeProfit settings.priceDeviationPercent
    (oppositeSide signal.side) rTp

/-- Leverage in the signal path:
`randomLeverage(account.leverageMin, account.leverageMax)` — drawn for **every**
account, with no master special-case. -/
def signalLeverage (account : AccountConfig) (rLev : ℚ) : ℤ :=
  randomLeverage account.leverageMin account.leverageMax rLev

/-- Volume in the signal path: `account.maxPositionUsd`, optionally capped by the
per-symbol contract limit, floored and clamped with `Math.max(1, ...)`. -/
def signalVolume (account : AccountConfig) (maxContracts : ℤ)
    (contractSize entryPrice : ℚ) : ℤ :=
  let positionUsd := account.maxPositionUsd
  let positionUsd := if 0 < maxContracts
    then min positionUsd ((maxContracts : ℚ) * contractSize * entryPrice)
    else positionUsd
  max 1 ⌊positionUsd / (entryPrice * contractSize)⌋

/-- Behaviour of one account's client interaction in the signal path: besides the
client lookup and the (possibly throwing) order call, the step first re-checks
`hasOpenPosition` and reports "Уже в позиции" when it holds. -/
inductive SignalClientCall
  | noClient
  | alreadyInPosition
  | throws (msg : String)
  | responds (success : Bool) (msg : Option String)
deriving DecidableEq, Repr

/-- Outcome of one signal-path account iteration: the submitted order (if any),
the pushed `TradeResult`, and whether the cancellation timer was armed
(`if (result.success) setTimeout(...)`). -/
structure SignalStepOutcome where
  order : Option OpenOrderRequest
  result : TradeResult
  timerArmed : Bool
deriving DecidableEq, Repr

/-- One iteration of the account loop in `handleTradeSignal`. -/
def signalAccountStep (settings : CopyTradingSettings) (signal : ParsedSignal)
    (maxContracts : ℤ) (contractSize : ℚ) (account : AccountConfig)
    (call : SignalClientCall) (rPrice rTp rLev : ℚ) : SignalStepOutcome :=
  match call with
  | .noClient =>
      ⟨none, { accountId := account.id
               accountName := account.name
               success := false
               message := "Клиент не инициализирован" }, false⟩
  | .alreadyInPosition =>
      ⟨none, { accountId := account.id
               accountName := account.name
               success := false
               message := "Уже в позиции" }, false⟩
  | .throws msg =>
      let entryPrice := signalEntryPrice settings signal account rPrice
      ⟨some { symbol := signal.fullSymbol
              side := signal.side
              price := entryPrice
              volume := signalVolume account maxContracts contractSize entryPrice
              leverage := signalLeverage account rLev
              takeProfit := some (signalTakeProfit settings signal account rTp) },
        { accountId := account.id
          accountName := account.name
          success := false
          message := msg }, false⟩
  | .responds success msg =>
      let entryPrice := signalEntryPrice settings signal account rPrice
      let volume := signalVolume account maxContracts contractSize entryPrice
      let leverage := signalLeverage account rLev
      ⟨some { symbol := signal.fullSymbol
              side := signal.side
              price := entryPrice
              volume := volume
              leverage := leverage
              takeProfit := some (signalTakeProfit settings signal account rTp) },
        { accountId := account.id
          accountName := account.name
          success := success
          message := msg.getD "OK"
          executedPrice := some entryPrice
          executedVolume := some (volume : ℚ)
          leverage := some leverage }, success⟩

/-! ## TP/SL batch: `CopyTradingEngine.setTpSlOnAll` -/

/-- TP/SL derivation in `setTpSlOnAll`: the master passes through unchanged; for
other accounts `if (tp)` / `if (sl)` (JavaScript truthiness, so an absent *or
zero* price is left alone) applies the deviation — take-profit in the direction
opposite to the position side, stop-loss in the same direction. -/
def setTpSlDerived (settings : CopyTradingSettings) (side : Side)
    (takeProfit stopLoss : Option ℚ) (account : AccountConfig)
    (rTp rSl : ℚ) : Option ℚ × Option ℚ :=
  if account.isMaster then (takeProfit, stopLoss)
  else
    let tp := match takeProfit with
      | some v => if v = 0 then some v
          else some (applyPriceDeviation v settings.priceDeviationPercent
            (oppositeSide side) rTp)
      | none => none
    let sl := match stopLoss with
      | some v => if v = 0 then some v
          else some (applyPriceDeviation v settings.priceDeviationPercent side rSl)
      | none => none
    (tp, sl)

/-- One iteration of the account loop in `setTpSlOnAll`: `if (!client) continue;`
records **no** result; otherwise exactly one result is pushed. -/
def setTpSlAccountStep (account : AccountConfig) (call : ClientCall) :
    Option TradeResult :=
  match call with
  | .noClient => none
  | .throws msg =>
      some { accountId := account.id
             accountName := account.name
             success := false
             message := msg }
  | .responds success msg =>
      some { accountId := account.id
             accountName := account.name
             success := success
             message := msg.getD "OK" }

/-- `setTpSlOnAll` over the enabled-account list. -/
def setTpSlOnAll (env : String → ClientCall) (accounts : List AccountConfig) :
    List TradeResult :=
  accounts.filterMap (fun account => setTpSlAccountStep account (env account.id))

/-! ## Manual batch close: `CopyTradingEngine.manualClosePosition` -/

/-- Behaviour of one account in `manualClosePosition`: no client, a throwing
call, or the fetched position list where each position carries its own
`closePosition` response (`success`, `message`) and price draw. -/
inductive CloseClientCall
  | noClient
  | throws (msg : String)
  | found (positions : List (Position × ℚ × Bool × Option String))
deriving DecidableEq, Repr

/-- One iteration of the account loop in `manualClosePosition`: no client →
`continue` with **no** result; an empty position list → one "Позиция не найдена"
failure; otherwise one result per position (close price from the explicit
parameter, else the current price, else the entry price; deviated in the
opposite direction for non-master accounts). -/
def manualCloseAccountStep (settings : CopyTradingSettings)
    (priceParam currentPrice : Option ℚ) (account : AccountConfig)
    (call : CloseClientCall) : List TradeResult :=
  match call with
  | .noClient => []
  | .throws msg =>
      [{ accountId := account.id
         accountName := account.name
         success := false
         message := msg }]
  | .found [] =>
      [{ accountId := account.id
         accountName := account.name
         success := false
         message := "Позиция не найдена" }]
  | .found positions =>
      positions.map (fun entry =>
        let position := entry.1
        let rClose := entry.2.1
        let success := entry.2.2.1
        let msg := entry.2.2.2
        let closePrice := priceParam.getD (currentPrice.getD position.entryPrice)
        let closePrice := if account.isMaster then closePrice
          else applyPriceDeviation closePrice settings.priceDeviationPercent
            (oppositeSide position.side) rClose
        { accountId := account.id
          accountName := account.name
          success := success
          message := msg.getD "OK"
          executedPrice := some closePrice
          executedVolume := some position.volume })

/-- `manualClosePosition` over the enabled-account list. -/
def manualClosePosition (settings : CopyTradingSettings)
    (priceParam : Option ℚ) (env : String → CloseClientCall)
    (currentPriceOf : String → Option ℚ) (accounts : List AccountConfig) :
    List TradeResult :=
  (accounts.map (fun account =>
    manualCloseAccountStep settings priceParam (currentPriceOf account.id)
      account (env account.id))).flatten

/-! ## Sample configuration used for concrete evaluations -/

/-- The default settings of `config/storage.ts` (`DEFAULT_SETTINGS`). -/
def sampleSettings : CopyTradingSettings :=
  { delayMinMs := 0
    delayMaxMs := 1000
    priceDeviationPercent := 1
    leverageSpread := 10
    copyOpenPositions := true
    copyClosePositions := true
    copyTpSl := true
    signalsEnabled := true
    signalEntryOffset := -1/2
    signalTpOffset := 1
    signalCancelTimeMin := 60
    signalCancelTimeMax := 180 }

/-- A concrete master account. -/
def sampleMaster : AccountConfig :=
  { id := "acc-1"
    name := "Account 1"
    enabled := true
    isMaster := true
    maxPositionUsd := 100
    leverageMin := 10
    leverageMax := 20 }

/-- A concrete slave account. -/
def sampleSlave : AccountConfig :=
  { id := "acc-2"
    name := "Account 2"
    enabled := true
    isMaster := false
    maxPositionUsd := 100
    leverageMin := 10
    leverageMax := 20 }

/-- A concrete parsed signal (the §8 example). -/
def sampleSignal : ParsedSignal :=
  { symbol := "BTC"
    fullSymbol := "BTC_USDT"
    entryPrice := 101
    takeProfit := 100
    side := .long }

/-- Concrete manual-open parameters with a tiny notional: 1 USD at price 10. -/
def smallNotionalParams : ManualOpenParams :=
  { symbol := "BTC_USDT"
    side := .long
    price := 10
    positionSizeUsd := 1
    leverage := 20 }

/-! ## ConfigStorage account-roster operations (`config/storage.ts`) -/

/-- Number of accounts flagged master (the roster invariant is that this is at
most 1). -/
def countMasters (accounts : List AccountConfig) : ℕ :=
  (accounts.filter (fun a => a.isMaster)).length

/-- `storage.ts` `ConfigStorage.addAccount` (the uuid generation is modelled by
the caller supplying the new record): if the roster is empty the new account is
forced master; it is then appended. No other account's flag is touched. -/
def addAccount (accounts : List AccountConfig) (account : AccountConfig) :
    List AccountConfig :=
  let newAccount := if accounts.length = 0 then { account with isMaster := true }
    else account
  accounts ++ [newAccount]

/-- The `Partial<AccountConfig>` argument of `updateAccount` (an omitted field
behaves like an absent property; the callers never update `id`). -/
structure AccountUpdates where
  name : Option String := none
  enabled : Option Bool := none
  isMaster : Option Bool := none
  maxPositionUsd : Option ℚ := none
  leverageMin : Option ℤ := none
  leverageMax : Option ℤ := none
deriving DecidableEq, Repr

/-- The JavaScript object spread `{...account, ...updates}`. -/
def applyUpdates (a : AccountConfig) (u : AccountUpdates) : AccountConfig :=
  { a with
    name := u.name.getD a.name
    enabled := u.enabled.getD a.enabled
    isMaster := u.isMaster.getD a.isMaster
    maxPositionUsd := u.maxPositionUsd.getD a.maxPositionUsd
    leverageMin := u.leverageMin.getD a.leverageMin
    leverageMax := u.leverageMax.getD a.leverageMax }

/-- `storage.ts` `ConfigStorage.updateAccount`: returns the roster unchanged when
the id is unknown; if the update sets `isMaster` to `true`, the flag of every
*other* account is cleared first; then the found account is overwritten with the
spread-merged record. -/
def updateAccount (accounts : List AccountConfig) (id : String)
    (updates : AccountUpdates) : List AccountConfig :=
  match accounts.findIdx? (fun a => a.id == id) with
  | none => accounts
  | some index =>
      let cleared := if updates.isMaster = some true
        then accounts.map (fun a => if a.id == id then a
          else { a with isMaster := false })
        else accounts
      cleared.set index (applyUpdates (accounts.getD index default) updates)

/-- `storage.ts` `ConfigStorage.deleteAccount`: splice the account out; if it was
the master and accounts remain, the first remaining account becomes master. -/
def deleteAccount (accounts : List AccountConfig) (id : String) :
    List AccountConfig :=
  match accounts.findIdx? (fun a => a.id == id) with
  | none => accounts
  | some index =>
      let wasMaster := (accounts.getD index default).isMaster
      let rest := accounts.eraseIdx index
      if wasMaster then
        match rest with
        | [] => []
        | r :: rs => { r with isMaster := true } :: rs
      else rest

/-- `storage.ts` `ConfigStorage.setMasterAccount`: no-op when the id is unknown;
otherwise every account's flag becomes `a.id === id`. -/
def setMasterAccount (accounts : List AccountConfig) (id : String) :
    List AccountConfig :=
  if (accounts.find? (fun a => a.id == id)).isNone then accounts
  else accounts.map (fun a => { a with isMaster := a.id == id })

/-- Account ids in the roster are pairwise distinct (they are uuids). -/
def idsNodup (accounts : List AccountConfig) : Prop :=
  (accounts.map (fun a => a.id)).Nodup

/-! ## SignalParser (`telegram/handlers/signals.ts` `parseTradeSignal`)

The three regexes of `parseTradeSignal` are embedded as scanners over
`List Char`.  Each pattern starts with a literal (`#`, `Price`), its character
classes are disjoint from the literals that follow them, and nothing follows
the final greedy capture, so a match at a position succeeds exactly when the
maximal-run (greedy, no-backtracking) reading succeeds — the embeddings below
therefore implement precisely the regex engine's first-match semantics. -/

/-- Case-insensitive character comparison (regex flag `i`). -/
def charICaseEq (a b : Char) : Bool := a.toUpper == b.toUpper

/-- Case-insensitive prefix test against a literal pattern. -/
def startsWithICase : List Char → List Char → Bool
  | [], _ => true
  | _ :: _, [] => false
  | p :: ps, c :: cs => charICaseEq p c && startsWithICase ps cs

/-- The character class `[A-Z0-9]` under flag `i`. -/
def tickerClassChar (c : Char) : Bool :=
  (decide ('A' ≤ c) && decide (c ≤ 'Z')) ||
    (decide ('a' ≤ c) && decide (c ≤ 'z')) || c.isDigit

/-- First match of `/#([A-Z0-9]+)_USDT/i`, returning the captured run:
at each `#` the maximal class run must be nonempty and be followed by the
literal `_USDT` (case-insensitively); `_` is not in the class, so no shorter
run can match. -/
def findTicker : List Char → Option (List Char)
  | [] => none
  | c :: cs =>
      if c == '#' then
        let run := cs.takeWhile tickerClassChar
        if !run.isEmpty && startsWithICase "_USDT".toList (cs.dropWhile tickerClassChar)
        then some run
        else findTicker cs
      else findTicker cs

/-- JavaScript `\s` (the whitespace characters occurring in these signals). -/
def isJsWhitespace (c : Char) : Bool :=
  c == ' ' || c == '\t' || c == '\n' || c == '\r' || c == '\x0b' || c == '\x0c'

/-- The character class `[\d.]`. -/
def digitDotChar (c : Char) : Bool := c.isDigit || c == '.'

/-- Match `Price\s+<label>\s+\$([\d.]+)` (flag `i`) anchored at the given
position, returning the capture. -/
def matchPriceAt (label : List Char) (s : List Char) : Option (List Char) :=
  if startsWithICase "Price".toList s then
    let s1 := s.drop 5
    if (s1.takeWhile isJsWhitespace).isEmpty then none
    else
      let s2 := s1.dropWhile isJsWhitespace
      if startsWithICase label s2 then
        let s3 := s2.drop label.length
        if (s3.takeWhile isJsWhitespace).isEmpty then none
        else
          match s3.dropWhile isJsWhitespace with
          | '$' :: s5 =>
              let num := s5.takeWhile digitDotChar
              if num.isEmpty then none else some num
          | _ => none
      else none
  else none

/-- First match of the labeled-price regex over the whole text. -/
def findPrice (label : List Char) : List Char → Option (List Char)
  | [] => none
  | c :: cs =>
      match matchPriceAt label (c :: cs) with
      | some num => some num
      | none => findPrice label cs

/-- Decimal value of a digit run. -/
def digitsToNat (s : List Char) : ℕ :=
  s.foldl (fun acc c => 10 * acc + (c.toNat - Char.toNat '0')) 0

/-- JavaScript `parseFloat` restricted to what `[\d.]+` can capture: leading
digits, then an optional fractional digit run after the first dot (parsing
stops at a second dot); a string with neither an integer digit nor a
fractional digit (such as `"."`) is `NaN`, modelled `none`.  The exact-rational
model does not reproduce float overflow of astronomically long digit runs. -/
def jsParseFloat (s : List Char) : Option ℚ :=
  let intPart := s.takeWhile Char.isDigit
  let rest := s.dropWhile Char.isDigit
  let fracPart := match rest with
    | '.' :: r => r.takeWhile Char.isDigit
    | _ => []
  if intPart.isEmpty && fracPart.isEmpty then none
  else some ((digitsToNat intPart : ℚ) +
    (digitsToNat fracPart : ℚ) / (10 ^ fracPart.length))

/-- List-prefix test (JavaScript `String.startsWith`, case-sensitive). -/
def startsWithList : List Char → List Char → Bool
  | [], _ => true
  | _ :: _, [] => false
  | a :: as, b :: bs => a == b && startsWithList as bs

/-- JavaScript `String.includes` on character lists (`containsList needle hay`). -/
def containsList (needle : List Char) : List Char → Bool
  | [] => needle.isEmpty
  | c :: cs => startsWithList needle (c :: cs) || containsList needle cs

/-- `signals.ts` `parseTradeSignal`: ticker first (none on failure), then both
labeled prices (none if either is missing), `parseFloat` with an `isNaN` check
(none on NaN — positivity is *not* checked), then side inference: default
short, "LONG" (any case) wins over "SHORT". -/
def parseTradeSignal (text : String) : Option ParsedSignal :=
  let chars := text.toList
  match findTicker chars with
  | none => none
  | some run =>
      let symbol := String.mk (run.map Char.toUpper)
      match findPrice "DEX".toList chars, findPrice "MEXC".toList chars with
      | some dexStr, some mexcStr =>
          match jsParseFloat dexStr, jsParseFloat mexcStr with
          | some priceDex, some priceMexc =>
              let upperText := chars.map Char.toUpper
              let side : Side :=
                if containsList "DOUBLE LONG".toList upperText ||
                    containsList "LONG".toList upperText then .long
                else if containsList "DOUBLE SHORT".toList upperText ||
                    containsList "SHORT".toList upperText then .short
                else .short
              some { symbol := symbol
                     fullSymbol := symbol ++ "_USDT"
                     entryPrice := priceMexc
                     takeProfit := priceDex
                     side := side }
          | _, _ => none
      | _, _ => none

/-- The §8 example input. -/
def c7Example : String := "#BTC_USDT Price DEX $100 Price MEXC $101 LONG"

/-- The §8 example with the DEX price label removed. -/
def c7ExampleNoDex : String := "#BTC_USDT Price MEXC $101 LONG"

/-- A signal whose DEX price is zero (not a positive number). -/
def c7ZeroExample : String := "#BTC_USDT Price DEX $0 Price MEXC $101"

/-! ## submitOrder retry (`mexc/client.ts` `MexcClientWrapper.submitOrder`) -/

/-- Outcome of one underlying SDK `submitOrder` call: resolved with
`success === false`, resolved otherwise (order id possibly present), or thrown. -/
inductive SubmitCallOutcome
  | ok (orderId : Option String)
  | failResp (message : Option String)
  | throwErr (message : String)
deriving DecidableEq, Repr

/-- The `{success, orderId?, message?}` record `submitOrder` returns. -/
structure SubmitResult where
  success : Bool
  orderId : Option String := none
  message : Option String := none
deriving DecidableEq, Repr

/-- The rate-limit classifier applied to a thrown error's message:
`msg.toLowerCase().includes('too frequent') || msg.toLowerCase().includes('rate limit')`. -/
def isRateLimitMessage (msg : String) : Bool :=
  containsList "too frequent".toList (msg.toList.map Char.toLower) ||
    containsList "rate limit".toList (msg.toList.map Char.toLower)

/-- What one loop iteration of `submitOrder` returns for a call outcome when no
retry is taken (`res.success === false` falls back to "Unknown error"). -/
def resolveAttempt (outcome : SubmitCallOutcome) : SubmitResult :=
  match outcome with
  | .ok orderId => { success := true, orderId := orderId }
  | .failResp m => { success := false, message := some (m.getD "Unknown error") }
  | .throwErr m => { success := false, message := some m }

/-- `submitOrder`'s retry loop over the outcomes of the at most two underlying
calls (second component: how many calls were made). Only a *thrown* first
attempt classified as rate-limiting triggers the single retry; the second
attempt's outcome is returned as is, because `attempt === 0` then fails. -/
def submitOrder (first second : SubmitCallOutcome) : SubmitResult × ℕ :=
  match first with
  | .throwErr m =>
      if isRateLimitMessage m then (resolveAttempt second, 2)
      else ({ success := false, message := some m }, 1)
  | outcome => (resolveAttempt outcome, 1)

/-- The randomized backoff `500 + Math.random() * 700` (milliseconds). -/
def submitOrderBackoff (r : ℚ) : ℚ := 500 + r * 700

/-- C8: for every base price `p > 0`, deviation bound `d ≥ 0` and draw `r ∈ [0,1)`,
`applyPriceDeviation` with direction `long` returns a price in `[p, p·(1+d/100)]`
and with direction `short` a price in `[p·(1-d/100), p]`. -/
theorem applyPriceDeviation_bounds (p d r : ℚ)
    (hp : 0 < p) (hd : 0 ≤ d) (hr0 : 0 ≤ r) (hr1 : r < 1) :
    (p ≤ applyPriceDeviation p d .long r ∧
      applyPriceDeviation p d .long r ≤ p * (1 + d / 100)) ∧
    (p * (1 - d / 100) ≤ applyPriceDeviation p d .short r ∧
      applyPriceDeviation p d .short r ≤ p) := by
  have hrd0 : 0 ≤ r * d := mul_nonneg hr0 hd
  have hrdd : r * d ≤ d := by nlinarith
  unfold applyPriceDeviation
  refine ⟨⟨?_, ?_⟩, ⟨?_, ?_⟩⟩ <;> simp only [] <;> nlinarith

/-- Witness for `applyPriceDeviation_bounds` at `p = 2`, `d = 50`, `r = 1/2`. -/
theorem applyPriceDeviation_bounds_witness :
    ((2 : ℚ) ≤ applyPriceDeviation 2 50 .long (1/2) ∧
      applyPriceDeviation 2 50 .long (1/2) ≤ 2 * (1 + 50 / 100)) ∧
    (2 * (1 - 50 / 100) ≤ applyPriceDeviation 2 50 .short (1/2) ∧
      applyPriceDeviation 2 50 .short (1/2) ≤ 2) :=
  applyPriceDeviation_bounds 2 50 (1/2) (by norm_num) (by norm_num) (by norm_num) (by norm_num)

/-- C10: `getOpenPositions` never propagates an error — a failed underlying query
yields `[]`, indistinguishable from an account with no open positions (or with
only zero-volume entries). -/
theorem getOpenPositions_total (e : String) (l : List RawPosition) (z : RawPosition)
    (hz : z.holdVol = 0) :
    getOpenPositions (.error e) = [] ∧
    getOpenPositions (.error e) = getOpenPositions (.ok []) ∧
    getOpenPositions (.ok [z]) = [] ∧
    getOpenPositions (.ok l) = (l.filter (fun p => 0 < p.holdVol)).map rawToPosition := by
  refine ⟨rfl, rfl, ?_, rfl⟩
  simp [getOpenPositions, hz]

/-- Witness for `getOpenPositions_total`. -/
theorem getOpenPositions_total_witness :
    getOpenPositions (.error "network error") = [] ∧
    getOpenPositions (.error "network error") = getOpenPositions (.ok []) ∧
    getOpenPositions (.ok [⟨"BTC_USDT", 1, 0, 100, 10, 5, 0⟩]) = [] ∧
    getOpenPositions (.ok []) = (([] : List RawPosition).filter (fun p => 0 < p.holdVol)).map rawToPosition :=
  getOpenPositions_total "network error" [] ⟨"BTC_USDT", 1, 0, 100, 10, 5, 0⟩ rfl

/-- `sameKey` is symmetric. -/
theorem sameKey_comm (p q : Position) : sameKey p q = sameKey q p := by
  simp only [sameKey, Bool.and_eq_true, beq_iff_eq, eq_comm]
  rcases h1 : p.symbol == q.symbol <;> rcases h2 : p.side == q.side <;>
    simp_all [BEq.comm]

/-- A member of a list with pairwise distinct keys occurs exactly once. -/
theorem count_eq_one_of_keysNodup {l : List Position} (h : keysNodup l)
    {p : Position} (hp : p ∈ l) : l.count p = 1 := by
  have hnd : l.Nodup := List.Nodup.of_map _ h
  have h1 : l.count p ≤ 1 := List.nodup_iff_count_le_one.mp hnd p
  have h2 : 0 < l.count p := List.count_pos_iff.mpr hp
  omega

/-- C4 (amended): on a watcher tick with current list successfully obtained,
a (symbol, side) pair present before but absent now yields exactly one close
replication, a pair present now but absent before yields exactly one open
replication, a pair present in both yields neither event for it, and the stored
snapshot is replaced by the fetched list; an exception inside the tick leaves the
snapshot unchanged with no events — but because `getOpenPositions` converts an
underlying query failure into an empty list, a failed fetch instead emits a close
replication for every previously known position and replaces the snapshot with
`[]`. -/
theorem checkMasterChanges_spec (previous current : List Position)
    (hprev : keysNodup previous) (hcur : keysNodup current) :
    (∀ p ∈ previous, (current.find? (fun q => sameKey q p)).isNone →
      ((checkMasterChanges previous (.ok current)).1.count (.closed p) = 1 ∧
        (checkMasterChanges previous (.ok current)).1.count (.opened p) = 0)) ∧
    (∀ q ∈ current, (previous.find? (fun p => sameKey p q)).isNone →
      ((checkMasterChanges previous (.ok current)).1.count (.opened q) = 1 ∧
        (checkMasterChanges previous (.ok current)).1.count (.closed q) = 0)) ∧
    (∀ p ∈ previous, ∀ q ∈ current, sameKey p q = true →
      (WatcherEvent.closed p ∉ (checkMasterChanges previous (.ok current)).1 ∧
        WatcherEvent.opened q ∉ (checkMasterChanges previous (.ok current)).1)) ∧
    (checkMasterChanges previous (.ok current)).2 = current ∧
    (∀ e, checkMasterChanges previous (.error e) = ([], previous)) ∧
    (∀ e, checkMasterChangesTick previous (.error e) = (previous.map .closed, [])) := by
  have hinj_closed : Function.Injective WatcherEvent.closed := by
    intro a b hab; cases hab; rfl
  have hinj_opened : Function.Injective WatcherEvent.opened := by
    intro a b hab; cases hab; rfl
  have hclosed_notin_opens : ∀ (l : List Position) (p : Position),
      WatcherEvent.closed p ∉ l.map WatcherEvent.opened := by
    intro l p hmem
    rcases List.mem_map.mp hmem with ⟨a, _, ha⟩
    exact WatcherEvent.noConfusion ha
  have hopened_notin_closes : ∀ (l : List Position) (p : Position),
      WatcherEvent.opened p ∉ l.map WatcherEvent.closed := by
    intro l p hmem
    rcases List.mem_map.mp hmem with ⟨a, _, ha⟩
    exact WatcherEvent.noConfusion ha
  refine ⟨?_, ?_, ?_, rfl, fun _ => rfl, ?_⟩
  · intro p hp hnone
    simp only [checkMasterChanges, List.count_append]
    constructor
    · rw [List.count_eq_zero.mpr (hclosed_notin_opens _ p), Nat.zero_add,
        List.count_map_of_injective _ _ hinj_closed,
        List.count_filter (by simpa using hnone)]
      exact count_eq_one_of_keysNodup hprev hp
    · rw [List.count_eq_zero.mpr (hopened_notin_closes _ p), Nat.add_zero,
        List.count_map_of_injective _ _ hinj_opened]
      rw [List.count_eq_zero]
      intro hmem
      have hmemcur : p ∈ current := List.mem_of_mem_filter hmem
      simp only [Option.isNone_iff_eq_none, List.find?_eq_none] at hnone
      have hc := hnone p hmemcur
      simp [sameKey] at hc
  · intro q hq hnone
    simp only [checkMasterChanges, List.count_append]
    constructor
    · rw [List.count_eq_zero.mpr (hopened_notin_closes _ q), Nat.add_zero,
        List.count_map_of_injective _ _ hinj_opened,
        List.count_filter (by simpa using hnone)]
      exact count_eq_one_of_keysNodup hcur hq
    · rw [List.count_eq_zero.mpr (hclosed_notin_opens _ q), Nat.zero_add,
        List.count_map_of_injective _ _ hinj_closed]
      rw [List.count_eq_zero]
      intro hmem
      have hmemprev : q ∈ previous := List.mem_of_mem_filter hmem
      simp only [Option.isNone_iff_eq_none, List.find?_eq_none] at hnone
      have hc := hnone q hmemprev
      simp [sameKey] at hc
  · intro p hp q hq hkey
    constructor
    · intro hmem
      simp only [checkMasterChanges, List.mem_append] at hmem
      rcases hmem with hmem | hmem
      · exact hclosed_notin_opens _ p hmem
      · rcases List.mem_map.mp hmem with ⟨a, hamem, ha⟩
        cases hinj_closed ha
        have hfil := List.of_mem_filter hamem
        simp only [Option.isNone_iff_eq_none, List.find?_eq_none] at hfil
        rw [sameKey_comm] at hkey
        exact hfil q hq hkey
    · intro hmem
      simp only [checkMasterChanges, List.mem_append] at hmem
      rcases hmem with hmem | hmem
      · rcases List.mem_map.mp hmem with ⟨a, hamem, ha⟩
        cases hinj_opened ha
        have hfil := List.of_mem_filter hamem
        simp only [Option.isNone_iff_eq_none, List.find?_eq_none] at hfil
        exact hfil p hp hkey
      · exact hopened_notin_closes _ q hmem
  · intro e
    simp [checkMasterChangesTick, checkMasterChanges, getOpenPositions]

/-- Witness for `checkMasterChanges_spec` on a one-element snapshot diffed
against an empty current list. -/
theorem checkMasterChanges_spec_witness :
    ((checkMasterChanges [⟨"BTC_USDT", .long, 1, 100, 10, 10, 0⟩] (.ok [])).1.count
        (.closed ⟨"BTC_USDT", .long, 1, 100, 10, 10, 0⟩) = 1 ∧
      (checkMasterChanges [⟨"BTC_USDT", .long, 1, 100, 10, 10, 0⟩] (.ok [])).1.count
        (.opened ⟨"BTC_USDT", .long, 1, 100, 10, 10, 0⟩) = 0) := by
  have h := checkMasterChanges_spec [⟨"BTC_USDT", .long, 1, 100, 10, 10, 0⟩] []
    (by simp [keysNodup]) (by simp [keysNodup])
  exact h.1 ⟨"BTC_USDT", .long, 1, 100, 10, 10, 0⟩ (by simp) (by simp)

/-- C4 counterexample: the stored snapshot is `[BTC_USDT long]` and the underlying
exchange query fails; because `getOpenPositions` swallows the error and returns
`[]`, the tick emits a close replication and replaces the snapshot with `[]` —
not, as claimed, "no events and snapshot unchanged". -/
theorem checkMasterChangesTick_failure_counterexample :
    checkMasterChangesTick [⟨"BTC_USDT", .long, 1, 100, 10, 10, 0⟩] (.error "timeout") =
      ([.closed ⟨"BTC_USDT", .long, 1, 100, 10, 10, 0⟩], []) ∧
    checkMasterChangesTick [⟨"BTC_USDT", .long, 1, 100, 10, 10, 0⟩] (.error "timeout") ≠
      ([], [⟨"BTC_USDT", .long, 1, 100, 10, 10, 0⟩]) := by
  constructor
  · rfl
  · decide

/-- C1 counterexample: with no position held the timer cancels all orders
(the claim says it performs no further action), and with a position held it does
nothing (the claim says it cancels): the code's condition is the exact inverse of
the claimed one. -/
theorem signalCancelTimer_counterexample :
    signalCancelTimerActions "BTC_USDT" false ≠ [] ∧
    signalCancelTimerActions "BTC_USDT" true ≠ [.cancelAllOrders "BTC_USDT"] := by
  decide

/-- C1 (amended): when the armed cancellation timer fires it first re-queries
whether the account still holds an open position for the signal's symbol; if a
position is held it performs no further action, and if no position is held it
cancels all outstanding orders for that symbol — and it never submits a close
order. -/
theorem signalCancelTimer_spec (fullSymbol : String) (hasPos : Bool) :
    signalCancelTimerActions fullSymbol hasPos =
      (if hasPos then [] else [.cancelAllOrders fullSymbol]) ∧
    (∀ s, TimerAction.closeOrder s ∉ signalCancelTimerActions fullSymbol hasPos) := by
  constructor
  · cases hasPos <;> rfl
  · intro s hmem
    cases hasPos <;> simp [signalCancelTimerActions] at hmem

/-- Witness for `signalCancelTimer_spec` at a held position. -/
theorem signalCancelTimer_spec_witness :
    signalCancelTimerActions "BTC_USDT" true = [] ∧
    TimerAction.closeOrder "BTC_USDT" ∉ signalCancelTimerActions "BTC_USDT" true :=
  ⟨by simpa using (signalCancelTimer_spec "BTC_USDT" true).1,
    (signalCancelTimer_spec "BTC_USDT" true).2 "BTC_USDT"⟩

/-- C2 counterexample: in `manualOpenPosition` with reference price 10, notional
1 USD and contract size 1 the derived contract count `⌊1/10⌋ = 0` is below 1,
yet an order of volume 1 is submitted to the client and the account's outcome is
reported with the client's success flag (message "OK") — not skipped, and not a
"volume too small" failure. -/
theorem manualOpen_smallVolume_counterexample :
    (⌊min smallNotionalParams.positionSizeUsd sampleMaster.maxPositionUsd /
        (smallNotionalParams.price * 1)⌋ < 1) ∧
    (manualOpenAccountStep sampleSettings smallNotionalParams 1 sampleMaster
        (.responds true none) 0 0).1 =
      some { symbol := "BTC_USDT", side := .long, price := 10, volume := 1, leverage := 20 } ∧
    (manualOpenAccountStep sampleSettings smallNotionalParams 1 sampleMaster
        (.responds true none) 0 0).2.success = true ∧
    (manualOpenAccountStep sampleSettings smallNotionalParams 1 sampleMaster
        (.responds true none) 0 0).2.message = "OK" := by
  refine ⟨?_, ?_, rfl, rfl⟩
  · show (⌊min (1 : ℚ) 100 / (10 * 1)⌋ < 1)
    norm_num
  · show (manualOpenAccountStep sampleSettings smallNotionalParams 1 sampleMaster
        (.responds true none) 0 0).1 = _
    simp only [manualOpenAccountStep, manualOpenRequest, manualOpenDerivedParams,
      manualOpenVolume, sampleMaster, smallNotionalParams, sampleSettings]
    norm_num

/-- C2 (amended): the automatic copy path skips an account (submitting nothing)
exactly when the derived contract count is below 1; the manual-open and signal
paths instead clamp the volume with `Math.max(1, ...)` and always submit; in all
three paths every submitted volume is at least 1 (never 0 or negative). -/
theorem volumeDerivation_spec (settings : CopyTradingSettings)
    (account : AccountConfig) (masterPosition : Position) (params : ManualOpenParams)
    (maxContracts : ℤ) (contractSize entryPrice rPrice rLev : ℚ) :
    (⌊min account.maxPositionUsd (masterPosition.margin * (masterPosition.leverage : ℚ)) /
        (applyPriceDeviation masterPosition.entryPrice settings.priceDeviationPercent
          masterPosition.side rPrice * contractSize)⌋ < 1 →
      copyOpenAccountStep settings account masterPosition contractSize rPrice rLev =
        .skippedVolumeTooSmall) ∧
    (∀ req, copyOpenAccountStep settings account masterPosition contractSize rPrice rLev =
        .order req → 1 ≤ req.volume) ∧
    (1 ≤ manualOpenVolume params account entryPrice contractSize) ∧
    (1 ≤ signalVolume account maxContracts contractSize entryPrice) := by
  refine ⟨?_, ?_, le_max_left 1 _, le_max_left 1 _⟩
  · intro h
    simp only [copyOpenAccountStep]
    rw [if_pos h]
  · intro req horder
    simp only [copyOpenAccountStep] at horder
    split at horder
    · exact absurd horder (by simp)
    · next h =>
        cases horder
        simpa using not_lt.mp h

/-- Witness for `volumeDerivation_spec`: margin 1, leverage 10, price 100 gives
count 0 for a slave in the automatic path, hence a skip. -/
theorem volumeDerivation_spec_witness :
    copyOpenAccountStep sampleSettings sampleSlave
      ⟨"BTC_USDT", .long, 1, 100, 10, 1, 0⟩ 1 0 0 = .skippedVolumeTooSmall ∧
    1 ≤ manualOpenVolume smallNotionalParams sampleMaster 10 1 ∧
    1 ≤ signalVolume sampleMaster 0 1 10 := by
  refine ⟨(volumeDerivation_spec sampleSettings sampleSlave
      ⟨"BTC_USDT", .long, 1, 100, 10, 1, 0⟩ smallNotionalParams 0 1 10 0 0).1 ?_,
    (volumeDerivation_spec sampleSettings sampleSlave
      ⟨"BTC_USDT", .long, 1, 100, 10, 1, 0⟩ smallNotionalParams 0 1 10 0 0).2.2.1,
    (volumeDerivation_spec sampleSettings sampleSlave
      ⟨"BTC_USDT", .long, 1, 100, 10, 1, 0⟩ smallNotionalParams 0 1 10 0 0).2.2.2⟩
  show (⌊min (100 : ℚ) ((1 : ℚ) * ((10 : ℤ) : ℚ)) /
      (applyPriceDeviation 100 1 .long 0 * 1)⌋ < 1)
  simp only [applyPriceDeviation]
  norm_num

/-- C3 counterexample: in the signal-driven path the master account's submitted
leverage depends on the random draw — `randomLeverage(leverageMin, leverageMax)`
is applied to the master as well, so the master does *not* receive a reference
leverage free of randomization (draws 0 and 1/2 give 10 and 15). -/
theorem signalMasterLeverage_counterexample :
    sampleMaster.isMaster = true ∧
    ((signalAccountStep sampleSettings sampleSignal 0 1 sampleMaster
        (.responds true none) 0 0 0).order.map (fun req => req.leverage)) = some 10 ∧
    ((signalAccountStep sampleSettings sampleSignal 0 1 sampleMaster
        (.responds true none) 0 0 (1/2)).order.map (fun req => req.leverage)) = some 15 := by
  refine ⟨rfl, ?_, ?_⟩ <;>
    simp only [signalAccountStep, signalLeverage, randomLeverage, sampleMaster,
      Option.map_some'] <;>
    norm_num

/-- C3 (amended): in the manual-open and TP/SL batches the master account
receives exactly the reference parameters (no randomization); in the signal
path no random price deviation is applied to the master's prices — only the
fixed global signal offsets — but the leverage is drawn from the account's
`[leverageMin, leverageMax]` for every account, the master included. -/
theorem masterPassthrough_spec (settings : CopyTradingSettings)
    (params : ManualOpenParams) (side : Side) (tp sl : Option ℚ)
    (signal : ParsedSignal) (account : AccountConfig) (rPrice rLev rTp rSl : ℚ)
    (hmaster : account.isMaster = true) :
    manualOpenDerivedParams settings params account rPrice rLev =
      (params.price, params.leverage) ∧
    setTpSlDerived settings side tp sl account rTp rSl = (tp, sl) ∧
    signalEntryPrice settings signal account rPrice =
      signal.entryPrice * (1 + settings.signalEntryOffset / 100) ∧
    signalTakeProfit settings signal account rTp =
      signal.takeProfit * (1 + settings.signalTpOffset / 100) ∧
    (∀ (acct : AccountConfig) (call : SignalClientCall) (maxContracts : ℤ)
        (contractSize r1 r2 r3 : ℚ) (req : OpenOrderRequest),
      (signalAccountStep settings signal maxContracts contractSize acct
          call r1 r2 r3).order = some req →
        req.leverage = randomLeverage acct.leverageMin acct.leverageMax r3) := by
  refine ⟨?_, ?_, ?_, ?_, ?_⟩
  · simp [manualOpenDerivedParams, hmaster]
  · simp [setTpSlDerived, hmaster]
  · simp [signalEntryPrice, hmaster]
  · simp [signalTakeProfit, hmaster]
  · intro acct call maxContracts contractSize r1 r2 r3 req horder
    cases call <;> simp only [signalAccountStep] at horder
    · exact absurd horder (by simp)
    · exact absurd horder (by simp)
    · cases horder; rfl
    · cases horder; rfl

/-- Witness for `masterPassthrough_spec` at the sample master account. -/
theorem masterPassthrough_spec_witness :
    manualOpenDerivedParams sampleSettings smallNotionalParams sampleMaster 0 0 =
      (smallNotionalParams.price, smallNotionalParams.leverage) ∧
    setTpSlDerived sampleSettings .long (some 105) (some 95) sampleMaster 0 0 =
      (some 105, some 95) ∧
    signalEntryPrice sampleSettings sampleSignal sampleMaster 0 =
      sampleSignal.entryPrice * (1 + sampleSettings.signalEntryOffset / 100) := by
  have h := masterPassthrough_spec sampleSettings smallNotionalParams .long
    (some 105) (some 95) sampleSignal sampleMaster 0 0 0 0 rfl
  exact ⟨h.1, h.2.1, h.2.2.1⟩

/-- Every arm of the manual-open account step records the account's own id. -/
theorem manualOpenAccountStep_accountId (settings : CopyTradingSettings)
    (params : ManualOpenParams) (contractSize : ℚ) (account : AccountConfig)
    (call : ClientCall) (rPrice rLev : ℚ) :
    (manualOpenAccountStep settings params contractSize account call
      rPrice rLev).2.accountId = account.id := by
  cases call <;> rfl

/-- C6 counterexample: `setTpSlOnAll` on a one-account roster whose client is not
initialized returns an empty result list — not one `TradeResult` per account. -/
theorem setTpSl_missingClient_counterexample :
    setTpSlOnAll (fun _ => .noClient) [sampleMaster] = [] ∧
    (setTpSlOnAll (fun _ => .noClient) [sampleMaster]).length ≠
      [sampleMaster].length := by
  exact ⟨rfl, by decide⟩

/-- C6 (amended): `manualOpenPosition` returns exactly one result per account in
input order, each slot depending only on that account's own client behaviour and
draws, and a throwing account yields a failed result carrying its message for
that account only; `setTpSlOnAll` and `manualClosePosition` also process
accounts in isolation and in input order, but silently skip (no result) any
account whose client is not initialized, and the close path yields one result
per fetched position ("Позиция не найдена" when there are none). -/
theorem batchResults_spec (settings : CopyTradingSettings)
    (params : ManualOpenParams) (contractSize : ℚ) (env : String → ClientCall)
    (draws : String → ℚ × ℚ) (cenv : String → CloseClientCall)
    (priceParam : Option ℚ) (currentPriceOf : String → Option ℚ)
    (accounts : List AccountConfig) :
    ((manualOpenPosition settings params contractSize env draws accounts).map
        (fun r => r.2.accountId) = accounts.map (fun a => a.id)) ∧
    (∀ i : ℕ, (manualOpenPosition settings params contractSize env draws accounts)[i]? =
        (accounts[i]?).map (fun a => manualOpenAccountStep settings params contractSize a
          (env a.id) (draws a.id).1 (draws a.id).2)) ∧
    (∀ (a : AccountConfig) (msg : String), env a.id = .throws msg →
        ((manualOpenAccountStep settings params contractSize a (env a.id)
            (draws a.id).1 (draws a.id).2).2.success = false ∧
          (manualOpenAccountStep settings params contractSize a (env a.id)
            (draws a.id).1 (draws a.id).2).2.message = msg)) ∧
    ((setTpSlOnAll env accounts).map (fun r => r.accountId) =
        (accounts.filter (fun a => !(env a.id == ClientCall.noClient))).map
          (fun a => a.id)) ∧
    (∀ account : AccountConfig,
        manualCloseAccountStep settings priceParam (currentPriceOf account.id)
          account .noClient = [] ∧
        (∀ msg, (manualCloseAccountStep settings priceParam (currentPriceOf account.id)
          account (.throws msg)).length = 1) ∧
        ((manualCloseAccountStep settings priceParam (currentPriceOf account.id)
          account (.found [])).length = 1) ∧
        (∀ ps, ps ≠ [] → (manualCloseAccountStep settings priceParam
          (currentPriceOf account.id) account (.found ps)).length = ps.length) ∧
        (∀ call r, r ∈ manualCloseAccountStep settings priceParam
          (currentPriceOf account.id) account call → r.accountId = account.id)) ∧
    ((manualClosePosition settings priceParam cenv currentPriceOf accounts).map
        (fun r => r.accountId) =
      (accounts.map (fun a => List.replicate
        (manualCloseAccountStep settings priceParam (currentPriceOf a.id) a
          (cenv a.id)).length a.id)).flatten) := by
  have hclose_id : ∀ (account : AccountConfig) (call : CloseClientCall) (r : TradeResult),
      r ∈ manualCloseAccountStep settings priceParam (currentPriceOf account.id)
        account call → r.accountId = account.id := by
    intro account call r hmem
    cases call with
    | noClient => simp [manualCloseAccountStep] at hmem
    | throws msg =>
        simp only [manualCloseAccountStep, List.mem_singleton] at hmem
        subst hmem; rfl
    | found ps =>
        cases ps with
        | nil =>
            simp only [manualCloseAccountStep, List.mem_singleton] at hmem
            subst hmem; rfl
        | cons p rest =>
            simp only [manualCloseAccountStep, List.mem_map] at hmem
            rcases hmem with ⟨entry, _, hr⟩
            subst hr; rfl
  refine ⟨?_, ?_, ?_, ?_, ?_, ?_⟩
  · rw [manualOpenPosition, List.map_map]
    exact List.map_congr_left (fun a _ => manualOpenAccountStep_accountId ..)
  · intro i
    rw [manualOpenPosition, List.getElem?_map]
  · intro a msg h
    rw [h]
    exact ⟨rfl, rfl⟩
  · induction accounts with
    | nil => rfl
    | cons a t ih =>
        cases h : env a.id <;>
          simp [setTpSlOnAll, List.filterMap_cons, setTpSlAccountStep, h, ih,
            List.filter_cons] <;>
          simpa [setTpSlOnAll] using ih
  · intro account
    refine ⟨rfl, fun msg => rfl, rfl, ?_, hclose_id account⟩
    intro ps hps
    cases ps with
    | nil => exact absurd rfl hps
    | cons p rest =>
        show ((p :: rest).map _).length = _
        rw [List.length_map]
  · rw [manualClosePosition, List.map_flatten, List.map_map]
    congr 1
    refine List.map_congr_left (fun a _ => ?_)
    show (manualCloseAccountStep settings priceParam (currentPriceOf a.id) a
        (cenv a.id)).map (fun r => r.accountId) = _
    rw [List.eq_replicate_iff]
    refine ⟨by rw [List.length_map], ?_⟩
    intro b hb
    rcases List.mem_map.mp hb with ⟨r, hr, hbr⟩
    rw [← hbr]
    exact hclose_id a (cenv a.id) r hr

/-- Witness for `batchResults_spec`: a two-account batch where the slave's
client throws. -/
theorem batchResults_spec_witness :
    ((manualOpenPosition sampleSettings smallNotionalParams 1
        (fun i => if i == "acc-2" then .throws "boom" else .responds true none)
        (fun _ => (0, 0)) [sampleMaster, sampleSlave]).map
        (fun r => r.2.accountId) = [sampleMaster, sampleSlave].map (fun a => a.id)) ∧
    ((manualOpenAccountStep sampleSettings smallNotionalParams 1 sampleSlave
        ((fun i => if i == "acc-2" then ClientCall.throws "boom"
          else ClientCall.responds true none) sampleSlave.id)
        0 0).2.success = false) := by
  have h := batchResults_spec sampleSettings smallNotionalParams 1
    (fun i => if i == "acc-2" then .throws "boom" else .responds true none)
    (fun _ => (0, 0)) (fun _ => .noClient) none (fun _ => none)
    [sampleMaster, sampleSlave]
  exact ⟨h.1, (h.2.2.1 sampleSlave "boom" rfl).1⟩

/-- Replacing the element at a valid index changes `countP` by the flags of the
outgoing and incoming elements. -/
theorem countP_set_add (p : AccountConfig → Bool) :
    ∀ (l : List AccountConfig) (n : ℕ) (b : AccountConfig), n < l.length →
      (l.set n b).countP p + (if p (l.getD n default) then 1 else 0) =
        l.countP p + (if p b then 1 else 0)
  | [], n, b, h => by simp at h
  | a :: t, 0, b, _ => by
      simp only [List.set_cons_zero, List.countP_cons, List.getD_cons_zero]
      omega
  | a :: t, n + 1, b, h => by
      have ih := countP_set_add p t n b (by simpa using h)
      simp only [List.set_cons_succ, List.countP_cons, List.getD_cons_succ]
      omega

/-- Removing the element at a valid index decreases `countP` by its flag. -/
theorem countP_eraseIdx_add (p : AccountConfig → Bool) :
    ∀ (l : List AccountConfig) (n : ℕ), n < l.length →
      (l.eraseIdx n).countP p + (if p (l.getD n default) then 1 else 0) =
        l.countP p
  | [], n, h => by simp at h
  | a :: t, 0, _ => by
      simp only [List.eraseIdx_cons_zero, List.countP_cons, List.getD_cons_zero]
  | a :: t, n + 1, h => by
      have ih := countP_eraseIdx_add p t n (by simpa using h)
      simp only [List.eraseIdx_cons_succ, List.countP_cons, List.getD_cons_succ]
      omega

/-- In a roster with pairwise distinct ids, at most one account bears any given
id. -/
theorem countP_id_le_one (id : String) :
    ∀ (l : List AccountConfig), idsNodup l →
      l.countP (fun a => a.id == id) ≤ 1
  | [], _ => by simp
  | a :: t, h => by
      have hnd := h
      simp only [idsNodup, List.map_cons, List.nodup_cons] at hnd
      by_cases ha : a.id = id
      · have hzero : t.countP (fun b => b.id == id) = 0 := by
          rw [List.countP_eq_zero]
          intro b hb
          have : b.id ≠ a.id := fun hc => hnd.1 (hc ▸ List.mem_map_of_mem _ hb)
          simp [ha ▸ this]
        simp [List.countP_cons, ha, hzero]
      · have := countP_id_le_one id t (by
          simpa [idsNodup] using hnd.2)
        simpa [List.countP_cons, ha] using this

/-- Setting a position of a list to its current element is the identity. -/
theorem set_get_self {α : Type _} : ∀ (l : List α) (n : ℕ) (h : n < l.length),
    l.set n (l.get ⟨n, h⟩) = l
  | [], n, h => by simp at h
  | _ :: _, 0, _ => by simp
  | a :: t, n + 1, h => by
      simp only [List.set_cons_succ, List.get_cons_succ]
      rw [set_get_self t n (by simpa using h)]

/-- `countMasters` as a `countP`. -/
theorem countMasters_eq_countP (l : List AccountConfig) :
    countMasters l = l.countP (fun a => a.isMaster) := by
  rw [countMasters, List.countP_eq_length_filter]

/-- C5 counterexample: adding an account whose record carries `isMaster: true`
to a roster that already has a master yields two masters — `addAccount` never
clears the flag of existing accounts. -/
theorem addAccount_twoMasters_counterexample :
    countMasters [sampleMaster] ≤ 1 ∧
    countMasters (addAccount [sampleMaster] { sampleSlave with isMaster := true }) = 2 := by
  constructor <;> decide

/-- C5 (amended): `updateAccount`, `deleteAccount` and `setMasterAccount`
preserve the at-most-one-master invariant (ids being distinct), and `addAccount`
preserves it provided the added record is not flagged master or the roster is
empty; adding to an empty roster forces the new account to be master, and
deleting the master promotes the first remaining account. `addAccount` does
*not* preserve the invariant for a master-flagged record added to a non-empty
roster. -/
theorem rosterMaster_spec (accounts : List AccountConfig) (account : AccountConfig)
    (id : String) (updates : AccountUpdates)
    (hnodup : idsNodup accounts) (hinv : countMasters accounts ≤ 1) :
    (addAccount [] account = [{ account with isMaster := true }] ∧
      countMasters (addAccount [] account) = 1) ∧
    (account.isMaster = false → accounts ≠ [] →
      countMasters (addAccount accounts account) = countMasters accounts) ∧
    countMasters (updateAccount accounts id updates) ≤ 1 ∧
    countMasters (deleteAccount accounts id) ≤ 1 ∧
    (∀ index, accounts.findIdx? (fun a => a.id == id) = some index →
      (accounts.getD index default).isMaster = true →
      ∀ r rs, deleteAccount accounts id = r :: rs → r.isMaster = true) ∧
    countMasters (setMasterAccount accounts id) ≤ 1 := by
  have hcm := countMasters_eq_countP
  refine ⟨⟨rfl, by simp [addAccount, countMasters]⟩, ?_, ?_, ?_, ?_, ?_⟩
  · intro hm hne
    have hlen : accounts.length ≠ 0 := fun h => hne (List.length_eq_zero.mp h)
    simp [addAccount, countMasters, List.filter_append, hlen, hm]
  · rcases hidx : accounts.findIdx? (fun a => a.id == id) with _ | index
    · simpa [updateAccount, hidx] using hinv
    · rcases List.findIdx?_eq_some_iff_getElem.mp hidx with ⟨hlt, hpidx, -⟩
      simp only [updateAccount, hidx]
      by_cases hmu : updates.isMaster = some true
      · rw [if_pos hmu]
        have hA : ∀ b ∈ ((accounts.map (fun a => if a.id == id then a
              else { a with isMaster := false })).set index
              (applyUpdates (accounts.getD index default) updates)),
            b.isMaster = true → (b.id == id) = true := by
          intro b hb hbm
          rcases List.mem_or_eq_of_mem_set hb with hb | rfl
          · rcases List.mem_map.mp hb with ⟨a, _, hba⟩
            by_cases ha : (a.id == id) = true
            · rw [← hba, if_pos ha]
              exact ha
            · rw [← hba, if_neg ha] at hbm
              simp at hbm
          · show ((applyUpdates (accounts.getD index default) updates).id == id) = true
            have : (applyUpdates (accounts.getD index default) updates).id =
                (accounts.get ⟨index, hlt⟩).id := by
              simp [applyUpdates, List.getElem?_eq_getElem hlt, List.get_eq_getElem]
            rw [this]
            simpa [List.get_eq_getElem] using hpidx
        have hids : (((accounts.map (fun a => if a.id == id then a
              else { a with isMaster := false })).set index
              (applyUpdates (accounts.getD index default) updates)).map
              (fun a => a.id)) = accounts.map (fun a => a.id) := by
          rw [List.map_set]
          have h1 : ((accounts.map (fun a => if a.id == id then a
              else { a with isMaster := false })).map (fun a => a.id)) =
              accounts.map (fun a => a.id) := by
            rw [List.map_map]
            refine List.map_congr_left (fun a _ => ?_)
            by_cases ha : a.id = id <;> simp [ha]
          rw [h1]
          have hidlt : index < (accounts.map (fun a => a.id)).length := by
            simpa using hlt
          have helem : (applyUpdates (accounts.getD index default) updates).id =
              (accounts.map (fun a => a.id)).get ⟨index, hidlt⟩ := by
            simp [applyUpdates, List.getElem?_eq_getElem hlt, List.get_eq_getElem,
              List.getElem_map]
          rw [helem, set_get_self]
        calc countMasters _ = _ := hcm _
          _ ≤ List.countP (fun a => a.id == id) _ := List.countP_mono_left hA
          _ ≤ 1 := countP_id_le_one id _ (by rw [idsNodup, hids]; exact hnodup)
      · rw [if_neg hmu]
        have hset := countP_set_add (fun a => a.isMaster) accounts index
          (applyUpdates (accounts.getD index default) updates) hlt
        simp only [] at hset
        rw [hcm] at hinv ⊢
        rcases hmi : updates.isMaster with _ | b
        · have he : (applyUpdates (accounts.getD index default) updates).isMaster =
              (accounts.getD index default).isMaster := by
            simp [applyUpdates, hmi]
          simp only [he] at hset
          omega
        · have hb : b = false := by
            cases b
            · rfl
            · exact absurd hmi hmu
          subst hb
          have he : (applyUpdates (accounts.getD index default) updates).isMaster =
              false := by
            simp [applyUpdates, hmi]
          simp only [he, Bool.false_eq_true, if_false] at hset
          omega
  · rcases hidx : accounts.findIdx? (fun a => a.id == id) with _ | index
    · simpa [deleteAccount, hidx] using hinv
    · rcases List.findIdx?_eq_some_iff_getElem.mp hidx with ⟨hlt, -, -⟩
      simp only [deleteAccount, hidx]
      have herase := countP_eraseIdx_add (fun a => a.isMaster) accounts index hlt
      simp only [] at herase
      rw [hcm] at hinv
      cases hwm : (accounts.getD index default).isMaster with
      | false =>
          simp only [hwm, Bool.false_eq_true, if_false] at herase ⊢
          rw [hcm]
          omega
      | true =>
          simp only [hwm] at herase ⊢
          rw [if_pos trivial] at herase
          rw [if_pos trivial]
          rcases hrest : accounts.eraseIdx index with _ | ⟨r, rs⟩
          · simp [countMasters]
          · rw [hrest] at herase
            show countMasters ({ r with isMaster := true } :: rs) ≤ 1
            have h1 : (({ r with isMaster := true } :: rs).countP (fun a => a.isMaster)) =
                rs.countP (fun a => a.isMaster) + 1 := by
              rw [List.countP_cons]
              simp
            rw [hcm, h1]
            rw [List.countP_cons] at herase
            omega
  · intro index hidx2 hwm r rs hres
    simp only [deleteAccount, hidx2, hwm, if_true] at hres
    rcases hrest : accounts.eraseIdx index with _ | ⟨r2, rs2⟩
    · rw [hrest] at hres
      exact absurd hres (by simp)
    · rw [hrest] at hres
      injection hres with h1 _
      rw [← h1]
  · by_cases hf : (accounts.find? (fun a => a.id == id)).isNone = true
    · simpa [setMasterAccount, hf] using hinv
    · rw [setMasterAccount, if_neg hf, hcm, List.countP_map]
      exact countP_id_le_one id accounts hnodup

/-- Witness for `rosterMaster_spec` on the two-account sample roster. -/
theorem rosterMaster_spec_witness :
    countMasters (deleteAccount [sampleMaster, sampleSlave] "acc-1") ≤ 1 ∧
    countMasters (setMasterAccount [sampleMaster, sampleSlave] "acc-2") ≤ 1 := by
  have h := rosterMaster_spec [sampleMaster, sampleSlave] sampleSlave "acc-1"
    {} (by unfold idsNodup; decide) (by decide)
  have h2 := rosterMaster_spec [sampleMaster, sampleSlave] sampleSlave "acc-2"
    {} (by unfold idsNodup; decide) (by decide)
  exact ⟨h.2.2.2.1, h2.2.2.2.2.2⟩

/-- `jsParseFloat` on a nonempty all-digit capture is its decimal value. -/
theorem jsParseFloat_digits (s : List Char) (hne : s ≠ [])
    (hdig : ∀ c ∈ s, Char.isDigit c) :
    jsParseFloat s = some ((digitsToNat s : ℕ) : ℚ) := by
  rw [jsParseFloat]
  simp only [List.takeWhile_eq_self_iff.mpr hdig, List.dropWhile_eq_nil_iff.mpr hdig]
  rw [if_neg (by simp [hne])]
  simp [digitsToNat]

/-- C7 counterexample: an input whose DEX price is `$0` still parses to a
signal (with `takeProfit = 0`): `parseTradeSignal` checks only `isNaN`, not
that the labeled prices are positive. -/
theorem parseTradeSignal_zeroPrice_counterexample :
    parseTradeSignal c7ZeroExample =
      some { symbol := "BTC", fullSymbol := "BTC_USDT", entryPrice := 101,
             takeProfit := 0, side := .short } ∧
    ¬(0 < (0 : ℚ)) := by
  constructor
  · have hT : findTicker c7ZeroExample.toList = some ['B', 'T', 'C'] := by decide
    have hD : findPrice "DEX".toList c7ZeroExample.toList = some ['0'] := by decide
    have hM : findPrice "MEXC".toList c7ZeroExample.toList = some ['1', '0', '1'] := by
      decide
    have hpD : jsParseFloat ['0'] = some 0 := by
      have hd : digitsToNat ['0'] = 0 := by decide
      rw [jsParseFloat_digits ['0'] (by decide) (by decide), hd]
      norm_num
    have hpM : jsParseFloat ['1', '0', '1'] = some 101 := by
      have hd : digitsToNat ['1', '0', '1'] = 101 := by decide
      rw [jsParseFloat_digits ['1', '0', '1'] (by decide) (by decide), hd]
      norm_num
    have hs1 : containsList "DOUBLE LONG".toList
        (c7ZeroExample.toList.map Char.toUpper) = false := by decide
    have hs2 : containsList "LONG".toList
        (c7ZeroExample.toList.map Char.toUpper) = false := by decide
    have hs3 : containsList "DOUBLE SHORT".toList
        (c7ZeroExample.toList.map Char.toUpper) = false := by decide
    have hs4 : containsList "SHORT".toList
        (c7ZeroExample.toList.map Char.toUpper) = false := by decide
    have hsym : String.mk (['B', 'T', 'C'].map Char.toUpper) = "BTC" := by decide
    simp only [parseTradeSignal, hT, hD, hM, hpD, hpM, hs1, hs2, hs3, hs4, hsym,
      Bool.or_self, Bool.false_eq_true, if_false]
    rfl
  · norm_num

/-- C7 (amended): the §8 example parses to
`{symbol BTC, side long, entryPrice 101, takeProfit 100}` and the same input
without the DEX label parses to `none`; a missing ticker or a missing DEX or
MEXC price label always yields `none` (not an error), and a successful parse
takes its `takeProfit` from the DEX capture and its `entryPrice` from the MEXC
capture, each accepted whenever `parseFloat` is not NaN (positivity and
finiteness are not required). -/
theorem parseTradeSignal_spec :
    parseTradeSignal c7Example =
      some { symbol := "BTC", fullSymbol := "BTC_USDT", entryPrice := 101,
             takeProfit := 100, side := .long } ∧
    parseTradeSignal c7ExampleNoDex = none ∧
    (∀ text : String, findTicker text.toList = none → parseTradeSignal text = none) ∧
    (∀ text : String, findPrice "DEX".toList text.toList = none →
      parseTradeSignal text = none) ∧
    (∀ text : String, findPrice "MEXC".toList text.toList = none →
      parseTradeSignal text = none) ∧
    (∀ (text : String) (sig : ParsedSignal), parseTradeSignal text = some sig →
      ∃ dexStr mexcStr, findPrice "DEX".toList text.toList = some dexStr ∧
        findPrice "MEXC".toList text.toList = some mexcStr ∧
        jsParseFloat dexStr = some sig.takeProfit ∧
        jsParseFloat mexcStr = some sig.entryPrice) := by
  refine ⟨?_, ?_, ?_, ?_, ?_, ?_⟩
  · have hT : findTicker c7Example.toList = some ['B', 'T', 'C'] := by decide
    have hD : findPrice "DEX".toList c7Example.toList = some ['1', '0', '0'] := by
      decide
    have hM : findPrice "MEXC".toList c7Example.toList = some ['1', '0', '1'] := by
      decide
    have hpD : jsParseFloat ['1', '0', '0'] = some 100 := by
      have hd : digitsToNat ['1', '0', '0'] = 100 := by decide
      rw [jsParseFloat_digits ['1', '0', '0'] (by decide) (by decide), hd]
      norm_num
    have hpM : jsParseFloat ['1', '0', '1'] = some 101 := by
      have hd : digitsToNat ['1', '0', '1'] = 101 := by decide
      rw [jsParseFloat_digits ['1', '0', '1'] (by decide) (by decide), hd]
      norm_num
    have hs2 : containsList "LONG".toList
        (c7Example.toList.map Char.toUpper) = true := by decide
    have hsym : String.mk (['B', 'T', 'C'].map Char.toUpper) = "BTC" := by decide
    simp only [parseTradeSignal, hT, hD, hM, hpD, hpM, hs2, Bool.or_true, if_true,
      hsym]
    rfl
  · have hT : findTicker c7ExampleNoDex.toList = some ['B', 'T', 'C'] := by decide
    have hD : findPrice "DEX".toList c7ExampleNoDex.toList = none := by decide
    rcases hM : findPrice "MEXC".toList c7ExampleNoDex.toList with _ | m <;>
      simp only [parseTradeSignal, hT, hD, hM]
  · intro text h
    simp only [parseTradeSignal, h]
  · intro text h
    rcases hT : findTicker text.toList with _ | run
    · simp only [parseTradeSignal, hT]
    · rcases hM : findPrice "MEXC".toList text.toList with _ | m <;>
        simp only [parseTradeSignal, hT, h, hM]
  · intro text h
    rcases hT : findTicker text.toList with _ | run
    · simp only [parseTradeSignal, hT]
    · rcases hD : findPrice "DEX".toList text.toList with _ | d <;>
        simp only [parseTradeSignal, hT, hD, h]
  · intro text sig hparse
    rcases hT : findTicker text.toList with _ | run
    · simp only [parseTradeSignal, hT] at hparse
      exact Option.noConfusion hparse
    rcases hD : findPrice "DEX".toList text.toList with _ | dexStr
    · rcases hM : findPrice "MEXC".toList text.toList with _ | m <;>
        simp only [parseTradeSignal, hT, hD, hM] at hparse <;>
        exact Option.noConfusion hparse
    rcases hM : findPrice "MEXC".toList text.toList with _ | mexcStr
    · simp only [parseTradeSignal, hT, hD, hM] at hparse
      exact Option.noConfusion hparse
    rcases hpD : jsParseFloat dexStr with _ | priceDex
    · rcases hpM : jsParseFloat mexcStr with _ | m2 <;>
        simp only [parseTradeSignal, hT, hD, hM, hpD, hpM] at hparse <;>
        exact Option.noConfusion hparse
    rcases hpM : jsParseFloat mexcStr with _ | priceMexc
    · simp only [parseTradeSignal, hT, hD, hM, hpD, hpM] at hparse
      exact Option.noConfusion hparse
    simp only [parseTradeSignal, hT, hD, hM, hpD, hpM, Option.some.injEq] at hparse
    refine ⟨dexStr, mexcStr, rfl, rfl, ?_, ?_⟩
    · rw [hpD, ← hparse]
    · rw [hpM, ← hparse]

/-- Witness for `parseTradeSignal_spec`: an input with no ticker parses to
`none`. -/
theorem parseTradeSignal_spec_witness :
    parseTradeSignal "Price DEX $100 Price MEXC $101" = none :=
  parseTradeSignal_spec.2.2.1 "Price DEX $100 Price MEXC $101" (by decide)

/-- C9: `submitOrder` makes a second underlying call exactly when the first
attempt threw a rate-limit-classified error; any other failure — a
`success: false` response, a non-rate-limit throw, or any failure of the second
attempt — is returned immediately as `{success: false, message}`; a successful
response is returned with its order id; the backoff lies in `[500, 1200)` ms. -/
theorem submitOrder_retry_spec (first second : SubmitCallOutcome) (r : ℚ)
    (hr0 : 0 ≤ r) (hr1 : r < 1) :
    ((submitOrder first second).2 = 2 ↔
      ∃ m, first = .throwErr m ∧ isRateLimitMessage m = true) ∧
    ((submitOrder first second).2 ≤ 2) ∧
    (∀ oid, first = .ok oid →
      submitOrder first second = ({ success := true, orderId := oid }, 1)) ∧
    (∀ m, first = .failResp m → submitOrder first second =
      ({ success := false, message := some (m.getD "Unknown error") }, 1)) ∧
    (∀ m, first = .throwErr m → isRateLimitMessage m = false →
      submitOrder first second = ({ success := false, message := some m }, 1)) ∧
    (∀ m, first = .throwErr m → isRateLimitMessage m = true →
      submitOrder first second = (resolveAttempt second, 2)) ∧
    (500 ≤ submitOrderBackoff r ∧ submitOrderBackoff r < 1200) := by
  refine ⟨?_, ?_, ?_, ?_, ?_, ?_, ?_, ?_⟩
  · cases first with
    | ok oid => simp [submitOrder, resolveAttempt]
    | failResp m => simp [submitOrder, resolveAttempt]
    | throwErr m =>
        by_cases h : isRateLimitMessage m = true
        · simp [submitOrder, h]
        · simp only [submitOrder, if_neg h]
          simp [h]
  · cases first with
    | ok oid => simp [submitOrder, resolveAttempt]
    | failResp m => simp [submitOrder, resolveAttempt]
    | throwErr m =>
        by_cases h : isRateLimitMessage m = true <;> simp [submitOrder, h]
  · intro oid h
    subst h
    rfl
  · intro m h
    subst h
    rfl
  · intro m h hrl
    subst h
    simp [submitOrder, hrl]
  · intro m h hrl
    subst h
    simp [submitOrder, hrl]
  · rw [submitOrderBackoff]
    nlinarith
  · rw [submitOrderBackoff]
    nlinarith

/-- Witness for `submitOrder_retry_spec`: a thrown rate-limit error on the
first attempt, a successful second attempt, draw `r = 1/2`. -/
theorem submitOrder_retry_spec_witness :
    submitOrder (.throwErr "Rate limit exceeded") (.ok (some "42")) =
      (resolveAttempt (.ok (some "42")), 2) ∧
    (500 ≤ submitOrderBackoff (1/2) ∧ submitOrderBackoff (1/2) < 1200) :=
  ⟨(submitOrder_retry_spec (.throwErr "Rate limit exceeded") (.ok (some "42"))
      (1/2) (by norm_num) (by norm_num)).2.2.2.2.2.1 "Rate limit exceeded" rfl
      (by decide),
    (submitOrder_retry_spec (.throwErr "Rate limit exceeded") (.ok (some "42"))
      (1/2) (by norm_num) (by norm_num)).2.2.2.2.2.2⟩

end MexcCopytrader
